import Mathlib

/-!
Shallow embedding of the debate-scheduling core of the repository
(`app/classes/memory.py`, `app/classes/agents.py`, `app/classes/moderator.py`,
`app/classes/simulation.py`).

Modelling conventions:
* Python floats are modelled as exact rationals (`ℚ`); in exact arithmetic
  every value is finite, so `np.isfinite` checks are identically true and are
  noted where they occur in the source.
* `np.exp` is transcendental, so it is passed in as an abstract function
  `expf : ℚ → ℚ` (the source only ever composes it with clipping).
* Calls into the reasoning backend (dspy modules) and the text-similarity
  oracle are modelled as oracle inputs, collected in the `Oracles` structure:
  a backend call either returns a structured value or raises, which we model
  with `Except String`.
* `random.choice` / `random.choices` return some element of a non-empty list;
  we model the randomness by an oracle index taken modulo the list length.
* Python lists indexed by agent id are Lean `List`s; out-of-range reads use
  `getD` and out-of-range writes are no-ops (unreachable in the program flow,
  where agent ids are exactly the indices 0..n-1 assigned at construction).
* The `ThreadPoolExecutor`/`as_completed` fan-out completes in a
  nondeterministic order; we process the eligible agents in list order (all
  claims treated here are insensitive to the completion order).
-/

namespace Debate

/-- FixedMemory (`memory.py`): a deque with `maxlen = size`; `enqueue` appends
and drops the oldest entry on overflow. -/
def enqueueMem (size : Nat) (mem : List String) (item : String) : List String :=
  let m := mem ++ [item]
  if size < m.length then m.drop (m.length - size) else m

/-- State of a `PoliAgent` (`agents.py`).  The dspy module objects
(`intent_module`, `respond_module`, `vote_module`, `critique`, `summarize`),
the language-model handle and the tool list are backend plumbing and live in
the oracle inputs instead. -/
structure AgentSt where
  id : Nat
  name : String
  topic : String
  persona_description : String
  memory : List String
  memory_size : Nat
  last_opinion : String
  max_interventions : Option Nat
  interventions_used : Nat
  deriving Repr, DecidableEq

/-- `PoliAgent.can_intervene`: true iff no cap is set or
`interventions_used < max_interventions`. -/
def canIntervene (a : AgentSt) : Bool :=
  match a.max_interventions with
  | none => true
  | some m => a.interventions_used < m

/-- Output of the intent backend call (`AgentIntentSignature`):
`raise_hand` and `desire_to_speak` after the `bool`/`float` coercions. -/
structure IntentOut where
  raise_hand : Bool
  desire_to_speak : ℚ
  deriving Repr, DecidableEq

/-- Result dictionary of `PoliAgent.propose` (the `draft` key is always `""`
and is omitted; `blocked` models `meta.blocked_by_intervention_limit`). -/
structure ProposeOut where
  raise_hand : Bool
  desire_to_speak : ℚ
  blocked : Bool
  deriving Repr, DecidableEq

/-- `PoliAgent.propose`: if the agent cannot intervene it returns
`raise_hand = False, desire_to_speak = 0.0` immediately without calling the
intent backend; otherwise the backend result (or its exception) is returned.
The method assigns to no field of `self`, so the agent is returned
unchanged in both branches. -/
def propose (intentO : Except String IntentOut) (a : AgentSt) :
    Except String (ProposeOut × AgentSt) :=
  if canIntervene a = false then
    .ok (⟨false, 0, true⟩, a)
  else
    intentO.map fun o => (⟨o.raise_hand, o.desire_to_speak, false⟩, a)

/-- `PoliAgent.talk`: the `last_speaker` / `last_opinion` arguments are
consumed only by the reasoning backend; the ReAct/refine draft and the
critique pass are backend calls, modelled by the oracle strings `draft` and
`corrected`; `final_response = crit.corrected_response or draft` (Python
`or`: the empty string falls back to the draft).  The final response is
enqueued in memory, stored as `last_opinion`, and `interventions_used` is
incremented. -/
def talk (draft corrected lastSpeaker lastOpinion : String) (a : AgentSt) :
    String × AgentSt :=
  let _ := (lastSpeaker, lastOpinion)
  let finalResponse := if corrected = "" then draft else corrected
  (finalResponse,
    { a with
      memory := enqueueMem a.memory_size a.memory finalResponse
      last_opinion := finalResponse
      interventions_used := a.interventions_used + 1 })

/-- Python's `not recent.strip()`: the string contains only whitespace. -/
def isBlank (s : String) : Bool :=
  s.data.all Char.isWhitespace

/-- `PoliAgent.summarize_memory`: if the joined memory text is blank
(`not recent.strip()`) the call is a no-op; otherwise the memory is cleared
and the backend summary (oracle string) is enqueued. -/
def summarizeMemory (summary : String) (a : AgentSt) : AgentSt :=
  let recent := String.intercalate "\n" a.memory
  if isBlank recent = true then a
  else { a with memory := enqueueMem a.memory_size [] summary }

/-- State of the `Moderator` (`moderator.py`).  `requests` stores the ids of
the registered agents (Python stores references to the agent objects; the
orchestrator owns the authoritative agent list and ids are indices into it). -/
structure Moderator where
  requests : List Nat
  desire_weights : List ℚ
  interventions : List Nat
  hands_raised : List Nat
  weights : List ℚ
  bias : List ℚ
  stance : String
  max_interventions_per_agent : Option Nat
  deriving Repr, DecidableEq

/-- `Moderator.__init__` for `n` agents. -/
def Moderator.init (n : Nat) (stance : String) (bias : List ℚ)
    (cap : Option Nat) : Moderator :=
  { requests := []
    desire_weights := []
    interventions := List.replicate n 0
    hands_raised := List.replicate n 0
    weights := List.replicate n 1
    bias := bias
    stance := stance
    max_interventions_per_agent := cap }

/-- `Moderator.add_request`: append the agent (by id) to `_requests` and its
eagerness to `_desire_weights`.  No other field is touched. -/
def addRequest (st : Moderator) (agentId : Nat) (weight : ℚ) : Moderator :=
  { st with
    requests := st.requests ++ [agentId]
    desire_weights := st.desire_weights ++ [weight] }

/-- `Moderator.reset_requests`: clear `_requests` and `_desire_weights`. -/
def resetRequests (st : Moderator) : Moderator :=
  { st with requests := [], desire_weights := [] }

/-- Increment entry `j` of a per-agent counter array (`xs[j] += 1`);
out-of-range writes are no-ops (unreachable: ids are valid indices). -/
def bumpAt (xs : List Nat) (j : Nat) : List Nat :=
  xs.set j (xs.getD j 0 + 1)

/-- `np.clip(x, lo, hi)` for scalars. -/
def clip (lo hi x : ℚ) : ℚ := max lo (min hi x)

/-- Engagement-stat tracking of `Moderator.update`: `hands_raised[agent.id]`
is incremented once per occurrence of the agent in `_requests`. -/
def updatedHands (st : Moderator) : List Nat :=
  st.requests.foldl bumpAt st.hands_raised

/-- Fairness weights of `Moderator.update`: per requester `j`, the exponent
`hands[j] - (1 / bias[j]) * interventions[j]` (with zero bias entries replaced
by 1 first) is clipped to `[-500, 500]` and fed to `expf` (= `np.exp`);
`hands` is the already-incremented `hands_raised` array. -/
def fairnessVec (expf : ℚ → ℚ) (st : Moderator) : List ℚ :=
  let hands := updatedHands st
  st.requests.map fun j =>
    let b0 := st.bias.getD j 1
    let b := if b0 = 0 then 1 else b0
    expf (clip (-500) 500
      ((hands.getD j 0 : ℚ) - (1 / b) * ((st.interventions.getD j 0 : ℚ))))

/-- Desire weights of `Moderator.update`: the registered eagerness values
(`[1.0] * len(requests)` if the list is empty), clipped to `[0.01, 1.0]`. -/
def desireVec (st : Moderator) : List ℚ :=
  (if st.desire_weights = [] then List.replicate st.requests.length (1 : ℚ)
   else st.desire_weights).map (clip (1 / 100) 1)

/-- `combined = fairness_weights * desire` (elementwise). -/
def combinedVec (expf : ℚ → ℚ) (st : Moderator) : List ℚ :=
  List.zipWith (· * ·) (fairnessVec expf st) (desireVec st)

/-- Safe normalization of `Moderator.update`: over exact rationals the
`np.isfinite` test of the source is identically true, so the degenerate
fallback to a vector of ones triggers exactly when the sum is ≤ 0; then the
vector is divided by its sum. -/
def normalizeFallback (l : List ℚ) : List ℚ :=
  let l2 := if l.sum ≤ 0 then List.replicate l.length (1 : ℚ) else l
  l2.map (· / l2.sum)

/-- `Moderator.update` (the spec's `recompute_weights`), parameterized by the
model `expf` of `np.exp`.  If `_requests` is empty the weights become empty;
otherwise `hands_raised` is incremented per request and the weights become
the safely normalized fairness-times-desire vector. -/
def update (expf : ℚ → ℚ) (st : Moderator) : Moderator :=
  if st.requests = [] then { st with weights := [] }
  else
    { st with
      hands_raised := updatedHands st
      weights := normalizeFallback (combinedVec expf st) }

/-- `Moderator.select_next_speaker`, with oracle indices `u` (for the
`random.choice` uniform fallbacks) and `w` (for the `random.choices` weighted
draw); each oracle models "some element of the non-empty request list" via
reduction modulo its length.  Returns `None` iff `_requests` is empty;
otherwise the fallback is used when `weights` is empty or mismatched in
length, or (the `np.isfinite` test being identically true over `ℚ`) when the
weights sum to ≤ 0.  The chosen agent's cumulative `interventions` entry is
incremented. -/
def selectNextSpeaker (u w : Nat) (st : Moderator) : Option Nat × Moderator :=
  if st.requests = [] then (none, st)
  else
    let chosen :=
      if st.weights = [] ∨ st.weights.length ≠ st.requests.length then
        st.requests.getD (u % st.requests.length) 0
      else if st.weights.sum ≤ 0 then
        st.requests.getD (u % st.requests.length) 0
      else
        st.requests.getD (w % st.requests.length) 0
    (some chosen, { st with interventions := bumpAt st.interventions chosen })

/-- Non-empty `last_opinion`s of the agents, in order
(`[a.last_opinion for a in agents if a.last_opinion]`). -/
def lastOpinions (agents : List AgentSt) : List String :=
  (agents.map AgentSt.last_opinion).filter (fun s => s ≠ "")

/-- Average used by `Moderator.diversity_too_high`: the sum of the pairwise
similarity matrix minus its trace (i.e. the sum of the off-diagonal entries),
divided by `n * (n - 1) + 1e-12` — the epsilon guard of the source is kept. -/
def offDiagAvg (simM : Nat → Nat → ℚ) (n : Nat) : ℚ :=
  let total := ((List.range n).map fun i =>
      ((List.range n).map fun j => simM i j).sum).sum
    - ((List.range n).map fun i => simM i i).sum
  total / ((n : ℚ) * ((n : ℚ) - 1) + 1 / 10 ^ 12)

/-- `Moderator.diversity_too_high` (the spec's `is_converged`), parameterized
by the similarity-matrix oracle `simM` over the filtered opinion list (the
embedding service + `cosine_similarity` composition).  Reads agent state only;
assigns to nothing. -/
def diversityTooHigh (simM : Nat → Nat → ℚ) (agents : List AgentSt)
    (minIters currentIter : ℤ) (threshold : ℚ) : Bool :=
  let ops := lastOpinions agents
  if ops.length < 2 then false
  else
    decide (offDiagAvg simM ops.length > threshold) && decide (currentIter ≥ minIters)

/-- `InternalAgentConfig` (`simulation.py`): the model fields are backend
plumbing and are omitted. -/
structure AgentCfg where
  name : String
  profile : String
  deriving Repr, DecidableEq

/-- The oracle inputs of one `step()` round: the opening-speaker random index,
the speaker's draft and critique texts, the per-agent-id intent backend call
(which may raise), the `np.exp` model, the two selection random indices, the
similarity matrix over the filtered opinion list, and the per-agent-id
summarization text. -/
structure Oracles where
  openIdx : Nat
  talkDraft : String
  talkCorrected : String
  intent : Nat → Except String IntentOut
  expf : ℚ → ℚ
  uIdx : Nat
  wIdx : Nat
  simM : Nat → Nat → ℚ
  summary : Nat → String

/-- State of a `Simulation` (`simulation.py`).  The embedder / LM / API
fields are backend plumbing; `_locutor` is the index of the active speaker in
`_agents` (Python holds an object reference; ids are assigned as indices). -/
structure Simulation where
  topic : String
  agent_configs : List AgentCfg
  max_iters : ℤ
  bias : Option (List ℚ)
  stance : String
  max_interventions_per_agent : Option Nat
  iters : Nat
  intervenciones : List String
  engagement_log : List (List String)
  opiniones : List String
  agents : List AgentSt
  mod : Option Moderator
  locutor : Option Nat
  started : Bool
  finished : Bool
  deriving Repr, DecidableEq

/-- A fresh `Simulation(...)` as built by the dataclass constructor. -/
def Simulation.init (topic : String) (cfgs : List AgentCfg) (maxIters : ℤ)
    (bias : Option (List ℚ)) (stance : String) (cap : Option Nat) : Simulation :=
  { topic := topic
    agent_configs := cfgs
    max_iters := maxIters
    bias := bias
    stance := stance
    max_interventions_per_agent := cap
    iters := 0
    intervenciones := []
    engagement_log := []
    opiniones := []
    agents := []
    mod := none
    locutor := none
    started := false
    finished := false }

/-- `Simulation._build_agents`: agent `idx` gets id `idx`, the config's name
and profile, fresh memory of size 3, and the global per-agent cap. -/
def buildAgents (topic : String) (cap : Option Nat) (cfgs : List AgentCfg) :
    List AgentSt :=
  (List.range cfgs.length).map fun idx =>
    let cfg := cfgs.getD idx ⟨"", ""⟩
    { id := idx
      name := cfg.name
      topic := topic
      persona_description := cfg.profile
      memory := []
      memory_size := 3
      last_opinion := ""
      max_interventions := cap
      interventions_used := 0 }

/-- `Simulation.start`: no-op when already started; otherwise builds the
agents, defaults `bias` to all ones, constructs the `Moderator`, picks the
opening commenter uniformly at random (`random.choice`, oracle index `r`
modulo the agent count — raising on an empty sequence), and resets the
iteration counter and the three history lists. -/
def Simulation.start (r : Nat) (s : Simulation) : Except String Simulation :=
  if s.started = true then .ok s
  else
    let ags := buildAgents s.topic s.max_interventions_per_agent s.agent_configs
    if ags.length = 0 then .error "IndexError: cannot choose from an empty sequence"
    else
      let bias := s.bias.getD (List.replicate ags.length 1)
      .ok { s with
        agents := ags
        bias := some bias
        mod := some (Moderator.init ags.length s.stance bias s.max_interventions_per_agent)
        locutor := some (r % ags.length)
        started := true
        finished := false
        iters := 0
        intervenciones := []
        engagement_log := []
        opiniones := [] }

/-- The round-result dictionary returned by `Simulation.step`. -/
structure StepResult where
  iteration : Nat
  speaker : String
  opinion : String
  engaged : List String
  finished : Bool
  stopped_reason : Option String
  deriving Repr, DecidableEq

/-- One completed future of the intent fan-out of `Simulation.step`: the
agent's `propose` result is collected; a raised exception is caught (and
logged) so the agent contributes nothing; an agent answering `raise_hand` is
appended to `comprometidos` and registered with the moderator together with
its `desire_to_speak`. -/
def fanStep (intent : Nat → Except String IntentOut)
    (acc : List String × Moderator) (a : AgentSt) : List String × Moderator :=
  match propose (intent a.id) a with
  | .error _ => acc
  | .ok (p, _) =>
    if p.raise_hand = true then
      (acc.1 ++ [a.name], addRequest acc.2 a.id p.desire_to_speak)
    else acc

/-- Intent fan-out of `Simulation.step`: collect all eligible agents'
`propose` results (the `as_completed` completion order is modelled as list
order; all properties proved below are insensitive to it). -/
def fanOut (intent : Nat → Except String IntentOut)
    (eligible : List AgentSt) (mod : Moderator) : List String × Moderator :=
  eligible.foldl (fanStep intent) ([], mod)

/-- Fan-out/selection phase results of one round of `Simulation.step`: the
engaged-name list `comprometidos`, the appended engagement log, the moderator
after registration/update/selection, the selected next speaker, and the stop
reason as of this phase. -/
structure RoundOutcome where
  compr : List String
  engagement : List (List String)
  mod3 : Moderator
  next : Option Nat
  stopped : Option String
  deriving Repr, DecidableEq

/-- Fan-out/selection phase of one round (`simulation.py` lines 157-186):
when no stop reason is set and eligible agents exist, the intent fan-out runs,
the weights are recomputed, the next speaker is sampled, and `next = None`
sets the no-one-wants-to-continue reason; otherwise an empty engagement entry
is recorded and there is no next speaker. -/
def roundEngage (o : Oracles) (engagementLog : List (List String))
    (mod : Moderator) (eligible : List AgentSt) (stopped0 : Option String) :
    RoundOutcome :=
  if stopped0 = none ∧ eligible.length > 0 then
    let (compr, mod1) := fanOut o.intent eligible mod
    let mod2 := update o.expf mod1
    let (next, mod3) := selectNextSpeaker o.uIdx o.wIdx mod2
    { compr := compr
      engagement := engagementLog ++ [compr]
      mod3 := mod3
      next := next
      stopped :=
        if next = none then some "No agents want to continue the debate"
        else stopped0 }
  else
    { compr := []
      engagement := engagementLog ++ [[]]
      mod3 := mod
      next := none
      stopped := stopped0 }

/-- Talking phase of `Simulation.step`: the previous round's speaker and
opinion (empty strings on round 1) are fed to the active speaker's `talk`. -/
def talkPhase (o : Oracles) (s : Simulation) (loc : AgentSt) : String × AgentSt :=
  talk o.talkDraft o.talkCorrected ((s.intervenciones.getLast?).getD "")
    ((s.opiniones.getLast?).getD "") loc

/-- Eligible set of one round: every agent whose name differs from the
speaker's and who can still intervene. -/
def eligibleOf (agents1 : List AgentSt) (speakerName : String) : List AgentSt :=
  agents1.filter fun a => decide (a.name ≠ speakerName) && canIntervene a

/-- Budget-exhaustion check run before the fan-out: with a global cap set and
the eligible set empty, the round stops. -/
def stopped0Of (s : Simulation) (eligible : List AgentSt) : Option String :=
  if s.max_interventions_per_agent ≠ none ∧ eligible.length = 0 then
    some "All agents have reached their maximum intervention limit"
  else none

/-- The stopping conditions checked after the fan-out: an already-set reason
wins; otherwise convergence (`min_iters = agent_count - 1`, `current_iter` =
the pre-increment iteration count, threshold 3/4) and then the iteration
budget are checked. -/
def stopAfter (o : Oracles) (s : Simulation) (agents1 : List AgentSt)
    (stopped1 : Option String) : Option String :=
  match stopped1 with
  | some r => some r
  | none =>
    if diversityTooHigh o.simM agents1 ((agents1.length : ℤ) - 1)
        (s.iters : ℤ) (3 / 4) = true then
      some "Agent opinions have converged too much"
    else if (s.iters : ℤ) + 1 ≥ s.max_iters then
      some "Maximum iterations limit reached"
    else none

/-- Periodic memory summarization: every third iteration all agents compress
their memory. -/
def maybeSummarize (o : Oracles) (iters2 : Nat) (agents1 : List AgentSt) :
    List AgentSt :=
  if iters2 % 3 = 0 then
    agents1.map fun a => summarizeMemory (o.summary a.id) a
  else agents1

/-- The eligible set of the round with speaker `loc` at index `li`: computed
on the post-talk agent list, excluding every agent that shares the speaker's
name. -/
def eligOf (o : Oracles) (s : Simulation) (li : Nat) (loc : AgentSt) :
    List AgentSt :=
  eligibleOf (s.agents.set li (talkPhase o s loc).2) (talkPhase o s loc).2.name

/-- The fan-out/selection outcome of the round with speaker `loc` at index
`li` (the moderator's requests having been reset at round start). -/
def roundOf (o : Oracles) (s : Simulation) (mod0 : Moderator) (li : Nat)
    (loc : AgentSt) : RoundOutcome :=
  roundEngage o s.engagement_log (resetRequests mod0) (eligOf o s li loc)
    (stopped0Of s (eligOf o s li loc))

/-- Body of one round of `Simulation.step` once the moderator `mod0`, the
speaker index `li` and the speaker `loc` have been resolved.  Faithful to the
source ordering: reset requests; the active speaker talks; speaker and
opinion are recorded; the eligible set is computed, the budget-exhaustion
check runs before the fan-out, then the fan-out/selection phase
(`roundEngage`) and the remaining stop conditions; if any reason was set the
simulation is finished (iteration count and active speaker unchanged), else
the speaker and iteration advance (the speaker becoming `next` — which is
`None` when the eligible set was empty); every third iteration all memories
are summarized. -/
def stepCore (o : Oracles) (s : Simulation) (mod0 : Moderator) (li : Nat)
    (loc : AgentSt) : Simulation × StepResult :=
  let tp := talkPhase o s loc
  let opinion := tp.1
  let locAfter := tp.2
  let agents1 := s.agents.set li locAfter
  let opiniones1 := s.opiniones ++ [opinion]
  let intervenciones1 := s.intervenciones ++ [locAfter.name]
  let ro := roundOf o s mod0 li loc
  let stopped2 := stopAfter o s agents1 ro.stopped
  let (finished2, locutor2, iters2) :=
    match stopped2 with
    | some _ => (true, s.locutor, s.iters)
    | none => (false, ro.next, s.iters + 1)
  let agents2 := maybeSummarize o iters2 agents1
  ({ s with
      agents := agents2
      mod := some ro.mod3
      locutor := locutor2
      iters := iters2
      intervenciones := intervenciones1
      engagement_log := ro.engagement
      opiniones := opiniones1
      finished := finished2 },
    { iteration := iters2
      speaker := (intervenciones1.getLast?).getD ""
      opinion := opinion
      engaged := ro.compr
      finished := finished2
      stopped_reason := stopped2 })

/-- `Simulation.step` on a started simulation (after the auto-start line):
early return when already finished; `AttributeError` when the moderator or
the active speaker is `None` (the latter is reachable — see the claims about
stop reasons); otherwise one round of `stepCore` runs. -/
def Simulation.stepStarted (o : Oracles) (s : Simulation) :
    Except String (Simulation × Option StepResult) :=
  if s.finished = true then .ok (s, none)
  else
    match s.mod with
    | none => .error "AttributeError: NoneType has no attribute reset_requests"
    | some mod0 =>
      match s.locutor with
      | none => .error "AttributeError: NoneType has no attribute talk"
      | some li =>
        match s.agents[li]? with
        | none => .error "IndexError: list index out of range"
        | some loc =>
          .ok ((stepCore o s mod0 li loc).1, some (stepCore o s mod0 li loc).2)

/-- `Simulation.step`: auto-start when not yet started, then run the round. -/
def Simulation.step (o : Oracles) (s : Simulation) :
    Except String (Simulation × Option StepResult) :=
  if s.started = true then s.stepStarted o
  else (s.start o.openIdx).bind fun s1 => s1.stepStarted o

/-- Iterate `step` `k` times, threading the state and drawing this round's
oracles from the stream `os` (indexed by the number of rounds still to run);
a raised exception aborts the run. -/
def stepN (os : Nat → Oracles) : Nat → Simulation → Except String Simulation
  | 0, s => .ok s
  | k + 1, s => (s.step (os k)).bind fun p => stepN os k p.1

/-! ### Helper lemmas -/

theorem sum_map_div (l : List ℚ) (s : ℚ) : (l.map (· / s)).sum = l.sum / s := by
  induction l with
  | nil => simp
  | cons a t ih => simp [ih, add_div]

theorem getD_mod_mem (l : List Nat) (k : Nat) (h : l ≠ []) :
    l.getD (k % l.length) 0 ∈ l := by
  have hlen : 0 < l.length := List.length_pos.mpr h
  have hk : k % l.length < l.length := Nat.mod_lt _ hlen
  rw [List.getD_eq_getElem?_getD, List.getElem?_eq_getElem hk]
  exact List.getElem_mem hk

theorem length_bumpAt (xs : List Nat) (j : Nat) : (bumpAt xs j).length = xs.length := by
  simp [bumpAt]

theorem bumpAt_getElem?_self (xs : List Nat) (j : Nat) (h : j < xs.length) :
    (bumpAt xs j)[j]? = (xs[j]?).map (· + 1) := by
  rw [bumpAt, List.getElem?_set_self h, List.getElem?_eq_getElem h,
    List.getD_eq_getElem?_getD, List.getElem?_eq_getElem h]
  rfl

theorem bumpAt_getElem?_ne (xs : List Nat) (j i : Nat) (h : i ≠ j) :
    (bumpAt xs j)[i]? = xs[i]? := by
  rw [bumpAt, List.getElem?_set_ne (fun hji => h hji.symm)]

theorem length_foldl_bumpAt (reqs : List Nat) (xs : List Nat) :
    (reqs.foldl bumpAt xs).length = xs.length := by
  induction reqs generalizing xs with
  | nil => rfl
  | cons r t ih => rw [List.foldl_cons, ih, length_bumpAt]

theorem foldl_bumpAt_getElem? (reqs : List Nat) (xs : List Nat) (i : Nat)
    (hv : ∀ j ∈ reqs, j < xs.length) :
    (reqs.foldl bumpAt xs)[i]? = (xs[i]?).map (· + reqs.count i) := by
  induction reqs generalizing xs with
  | nil =>
    cases h : xs[i]? <;> simp [h]
  | cons r t ih =>
    rw [List.foldl_cons,
      ih (bumpAt xs r) (fun j hj => by
        rw [length_bumpAt]; exact hv j (List.mem_cons_of_mem r hj))]
    by_cases hir : r = i
    · subst hir
      rw [bumpAt_getElem?_self xs r (hv r (List.mem_cons_self r t))]
      cases h : xs[r]? with
      | none =>
        exact absurd (List.getElem?_eq_getElem (hv r (List.mem_cons_self r t)))
          (by simp [h])
      | some v =>
        simp [List.count_cons, Nat.add_comm, Nat.add_assoc, Nat.add_left_comm]
    · rw [bumpAt_getElem?_ne xs r i (fun hh => hir hh.symm)]
      have : (r :: t).count i = t.count i := by
        simp [List.count_cons, hir]
      rw [this]

theorem length_normalizeFallback (l : List ℚ) :
    (normalizeFallback l).length = l.length := by
  simp only [normalizeFallback]
  split <;> simp

theorem sum_normalizeFallback (l : List ℚ) (hne : l ≠ []) :
    (normalizeFallback l).sum = 1 := by
  have hlen : 0 < l.length := List.length_pos.mpr hne
  simp only [normalizeFallback]
  by_cases h : l.sum ≤ 0
  · rw [if_pos h, sum_map_div, List.sum_replicate, nsmul_eq_mul, mul_one, div_self]
    exact_mod_cast hlen.ne'
  · rw [if_neg h, sum_map_div, div_self]
    exact ne_of_gt (lt_of_not_le h)

theorem length_combinedVec (expf : ℚ → ℚ) (st : Moderator)
    (hlen : st.desire_weights = [] ∨ st.desire_weights.length = st.requests.length) :
    (combinedVec expf st).length = st.requests.length := by
  simp only [combinedVec, fairnessVec, desireVec, List.length_zipWith, List.length_map]
  by_cases hw : st.desire_weights = []
  · simp [hw]
  · rw [if_neg hw, (hlen.resolve_left hw)]
    exact min_self _

theorem update_requests (expf : ℚ → ℚ) (st : Moderator) :
    (update expf st).requests = st.requests := by
  simp only [update]; split <;> rfl

theorem update_interventions (expf : ℚ → ℚ) (st : Moderator) :
    (update expf st).interventions = st.interventions := by
  simp only [update]; split <;> rfl

theorem selectNextSpeaker_nil (u w : Nat) (st : Moderator) (h : st.requests = []) :
    selectNextSpeaker u w st = (none, st) := by
  simp [selectNextSpeaker, h]

theorem selectNextSpeaker_of_ne (u w : Nat) (st : Moderator) (h : st.requests ≠ []) :
    ∃ j, j ∈ st.requests ∧
      selectNextSpeaker u w st =
        (some j, { st with interventions := bumpAt st.interventions j }) := by
  simp only [selectNextSpeaker, if_neg h]
  refine ⟨_, ?_, rfl⟩
  split_ifs <;> exact getD_mod_mem _ _ h

instance {ε α : Type} [DecidableEq ε] [DecidableEq α] : DecidableEq (Except ε α) :=
  fun a b =>
    match a, b with
    | .error x, .error y =>
      if h : x = y then .isTrue (by rw [h]) else .isFalse fun hh => h (Except.error.inj hh)
    | .ok x, .ok y =>
      if h : x = y then .isTrue (by rw [h]) else .isFalse fun hh => h (Except.ok.inj hh)
    | .error _, .ok _ => .isFalse fun hh => Except.noConfusion hh
    | .ok _, .error _ => .isFalse fun hh => Except.noConfusion hh

theorem mem_of_getElemOpt {α : Type} {l : List α} {n : Nat} {a : α}
    (h : l[n]? = some a) : a ∈ l := by
  obtain ⟨hlt, rfl⟩ := List.getElem?_eq_some_iff.mp h
  exact List.getElem_mem hlt

/-- Replace every raising intent backend by "does not raise a hand"; the
claim that errors are swallowed is the statement that running a round with
`recoverIntent` is indistinguishable from running it with the raw backend. -/
def recoverIntent (f : Nat → Except String IntentOut) :
    Nat → Except String IntentOut :=
  fun j =>
    match f j with
    | .error _ => .ok ⟨false, 0⟩
    | .ok p => .ok p

theorem fanStep_recover (f : Nat → Except String IntentOut)
    (acc : List String × Moderator) (a : AgentSt) :
    fanStep (recoverIntent f) acc a = fanStep f acc a := by
  by_cases hc : canIntervene a = false
  · simp [fanStep, propose, hc]
  · cases hf : f a.id with
    | error e => simp [fanStep, propose, hc, recoverIntent, hf, Except.map]
    | ok p => simp [fanStep, propose, hc, recoverIntent, hf, Except.map]

theorem fanOut_recover (f : Nat → Except String IntentOut)
    (el : List AgentSt) (m : Moderator) :
    fanOut (recoverIntent f) el m = fanOut f el m := by
  simp only [fanOut]
  generalize (([] : List String), m) = acc
  induction el generalizing acc with
  | nil => rfl
  | cons a t ih => rw [List.foldl_cons, List.foldl_cons, fanStep_recover, ih]

theorem fanStep_fst_cases (f : Nat → Except String IntentOut)
    (acc : List String × Moderator) (a : AgentSt) (X : String)
    (h : X ∈ (fanStep f acc a).1) :
    X ∈ acc.1 ∨ (a.name = X ∧ canIntervene a = true ∧
      ∃ q, f a.id = .ok q ∧ q.raise_hand = true) := by
  by_cases hc : canIntervene a = false
  · simp only [fanStep, propose, hc, if_pos rfl, Bool.false_eq_true, if_false] at h
    exact Or.inl h
  · cases hf : f a.id with
    | error e =>
      simp only [fanStep, propose, if_neg hc, hf, Except.map] at h
      exact Or.inl h
    | ok p =>
      by_cases hr : p.raise_hand = true
      · simp only [fanStep, propose, if_neg hc, hf, Except.map, hr, if_pos rfl] at h
        rcases List.mem_append.mp h with h2 | h2
        · exact Or.inl h2
        · have hx : X = a.name := by
            cases h2 with
            | head => rfl
            | tail _ h3 => cases h3
          exact Or.inr ⟨hx.symm, Bool.not_eq_false _ |>.mp hc, p, rfl, hr⟩
      · simp only [fanStep, propose, if_neg hc, hf, Except.map, hr, if_false] at h
        exact Or.inl h

theorem fanStep_requests_cases (f : Nat → Except String IntentOut)
    (acc : List String × Moderator) (a : AgentSt) (j : Nat)
    (h : j ∈ (fanStep f acc a).2.requests) :
    j ∈ acc.2.requests ∨ (a.id = j ∧ canIntervene a = true) := by
  by_cases hc : canIntervene a = false
  · simp only [fanStep, propose, hc, if_pos rfl, Bool.false_eq_true, if_false] at h
    exact Or.inl h
  · cases hf : f a.id with
    | error e =>
      simp only [fanStep, propose, if_neg hc, hf, Except.map] at h
      exact Or.inl h
    | ok p =>
      by_cases hr : p.raise_hand = true
      · simp only [fanStep, propose, if_neg hc, hf, Except.map, hr, if_pos rfl,
          addRequest] at h
        rcases List.mem_append.mp h with h2 | h2
        · exact Or.inl h2
        · have hx : j = a.id := by
            cases h2 with
            | head => rfl
            | tail _ h3 => cases h3
          exact Or.inr ⟨hx.symm, Bool.not_eq_false _ |>.mp hc⟩
      · simp only [fanStep, propose, if_neg hc, hf, Except.map, hr, if_false] at h
        exact Or.inl h

theorem fanStep_interventions (f : Nat → Except String IntentOut)
    (acc : List String × Moderator) (a : AgentSt) :
    (fanStep f acc a).2.interventions = acc.2.interventions := by
  simp only [fanStep]
  cases propose (f a.id) a with
  | error e => rfl
  | ok pr =>
    obtain ⟨p, rest⟩ := pr
    by_cases hr : p.raise_hand = true <;> simp [hr, addRequest]

theorem fanOut_go_fst_mem (f : Nat → Except String IntentOut) (X : String) :
    ∀ (el : List AgentSt) (acc : List String × Moderator),
      X ∈ (el.foldl (fanStep f) acc).1 →
      X ∈ acc.1 ∨ ∃ a ∈ el, a.name = X ∧ canIntervene a = true ∧
        ∃ q, f a.id = .ok q ∧ q.raise_hand = true
  | [], acc, h => Or.inl h
  | a :: t, acc, h => by
    rw [List.foldl_cons] at h
    rcases fanOut_go_fst_mem f X t (fanStep f acc a) h with h1 | h1
    · rcases fanStep_fst_cases f acc a X h1 with h2 | h2
      · exact Or.inl h2
      · exact Or.inr ⟨a, List.mem_cons_self a t, h2⟩
    · obtain ⟨b, hb, rest⟩ := h1
      exact Or.inr ⟨b, List.mem_cons_of_mem a hb, rest⟩

theorem fanOut_go_requests (f : Nat → Except String IntentOut) (j : Nat) :
    ∀ (el : List AgentSt) (acc : List String × Moderator),
      j ∈ (el.foldl (fanStep f) acc).2.requests →
      j ∈ acc.2.requests ∨ ∃ a ∈ el, a.id = j ∧ canIntervene a = true
  | [], acc, h => Or.inl h
  | a :: t, acc, h => by
    rw [List.foldl_cons] at h
    rcases fanOut_go_requests f j t (fanStep f acc a) h with h1 | h1
    · rcases fanStep_requests_cases f acc a j h1 with h2 | h2
      · exact Or.inl h2
      · exact Or.inr ⟨a, List.mem_cons_self a t, h2⟩
    · obtain ⟨b, hb, rest⟩ := h1
      exact Or.inr ⟨b, List.mem_cons_of_mem a hb, rest⟩

theorem fanOut_go_interventions (f : Nat → Except String IntentOut) :
    ∀ (el : List AgentSt) (acc : List String × Moderator),
      (el.foldl (fanStep f) acc).2.interventions = acc.2.interventions
  | [], _ => rfl
  | a :: t, acc => by
    rw [List.foldl_cons, fanOut_go_interventions f t (fanStep f acc a),
      fanStep_interventions]

theorem fanOut_fst_mem (f : Nat → Except String IntentOut)
    (el : List AgentSt) (m : Moderator) (X : String)
    (hX : X ∈ (fanOut f el m).1) :
    ∃ a ∈ el, a.name = X ∧ canIntervene a = true ∧
      ∃ q, f a.id = .ok q ∧ q.raise_hand = true := by
  rcases fanOut_go_fst_mem f X el ([], m) hX with h0 | h0
  · cases h0
  · exact h0

theorem fanOut_snd_requests (f : Nat → Except String IntentOut)
    (el : List AgentSt) (m : Moderator) (j : Nat)
    (hj : j ∈ (fanOut f el m).2.requests) :
    j ∈ m.requests ∨ ∃ a ∈ el, a.id = j ∧ canIntervene a = true :=
  fanOut_go_requests f j el ([], m) hj

theorem fanOut_snd_interventions (f : Nat → Except String IntentOut)
    (el : List AgentSt) (m : Moderator) :
    (fanOut f el m).2.interventions = m.interventions :=
  fanOut_go_interventions f el ([], m)

theorem roundEngage_recover (o : Oracles) (log : List (List String))
    (mod : Moderator) (el : List AgentSt) (s0 : Option String) :
    roundEngage { o with intent := recoverIntent o.intent } log mod el s0 =
      roundEngage o log mod el s0 := by
  simp only [roundEngage, fanOut_recover]

theorem stepCore_recover (o : Oracles) (s : Simulation) (mod0 : Moderator)
    (li : Nat) (loc : AgentSt) :
    stepCore { o with intent := recoverIntent o.intent } s mod0 li loc =
      stepCore o s mod0 li loc := by
  simp only [stepCore, talkPhase, roundOf, eligOf, roundEngage_recover, stopAfter,
    maybeSummarize]

theorem roundEngage_compr_sub (o : Oracles) (log : List (List String))
    (mod : Moderator) (el : List AgentSt) (s0 : Option String) (X : String)
    (h : X ∈ (roundEngage o log mod el s0).compr) :
    X ∈ (fanOut o.intent el mod).1 := by
  simp only [roundEngage] at h
  split at h
  · exact h
  · cases h

theorem roundEngage_engagement (o : Oracles) (log : List (List String))
    (mod : Moderator) (el : List AgentSt) (s0 : Option String) :
    (roundEngage o log mod el s0).engagement =
      log ++ [(roundEngage o log mod el s0).compr] := by
  simp only [roundEngage]
  split <;> rfl

theorem roundEngage_next_none (o : Oracles) (log : List (List String))
    (mod : Moderator) (el : List AgentSt) (s0 : Option String)
    (h : (roundEngage o log mod el s0).next = none) :
    (roundEngage o log mod el s0).mod3.interventions = mod.interventions := by
  simp only [roundEngage] at h ⊢
  by_cases hcond : s0 = none ∧ el.length > 0
  · rw [if_pos hcond] at h ⊢
    by_cases hre : (update o.expf (fanOut o.intent el mod).2).requests = []
    · simp only [selectNextSpeaker_nil _ _ _ hre, update_interventions,
        fanOut_snd_interventions]
    · obtain ⟨j, hj, hsel⟩ := selectNextSpeaker_of_ne o.uIdx o.wIdx _ hre
      simp [hsel] at h
  · rw [if_neg hcond]

theorem roundEngage_next_some (o : Oracles) (log : List (List String))
    (mod : Moderator) (el : List AgentSt) (s0 : Option String) (j : Nat)
    (h : (roundEngage o log mod el s0).next = some j) :
    (roundEngage o log mod el s0).mod3.interventions = bumpAt mod.interventions j ∧
      (j ∈ mod.requests ∨ ∃ a ∈ el, a.id = j ∧ canIntervene a = true) := by
  simp only [roundEngage] at h ⊢
  by_cases hcond : s0 = none ∧ el.length > 0
  · rw [if_pos hcond] at h ⊢
    by_cases hre : (update o.expf (fanOut o.intent el mod).2).requests = []
    · simp [selectNextSpeaker_nil _ _ _ hre] at h
    · obtain ⟨c, hc, hsel⟩ := selectNextSpeaker_of_ne o.uIdx o.wIdx _ hre
      simp only [hsel] at h ⊢
      obtain rfl : c = j := Option.some.inj h
      refine ⟨?_, ?_⟩
      · show bumpAt (update o.expf (fanOut o.intent el mod).2).interventions c =
          bumpAt mod.interventions c
        rw [update_interventions, fanOut_snd_interventions]
      · rw [update_requests] at hc
        exact fanOut_snd_requests o.intent el mod c hc
  · rw [if_neg hcond] at h
    cases h

theorem roundEngage_stopped_none (o : Oracles) (log : List (List String))
    (mod : Moderator) (el : List AgentSt) (s0 : Option String)
    (h : (roundEngage o log mod el s0).stopped = none) :
    s0 = none ∧ ((roundEngage o log mod el s0).next = none → ¬(el.length > 0)) := by
  simp only [roundEngage] at h ⊢
  by_cases hcond : s0 = none ∧ el.length > 0
  · rw [if_pos hcond] at h ⊢
    refine ⟨hcond.1, fun hn _ => ?_⟩
    rw [if_pos hn] at h
    cases h
  · rw [if_neg hcond] at h ⊢
    refine ⟨h, fun _ hgt => hcond ⟨h, hgt⟩⟩

theorem talkPhase_fields (o : Oracles) (s : Simulation) (loc : AgentSt) :
    (talkPhase o s loc).2.interventions_used = loc.interventions_used + 1 ∧
    (talkPhase o s loc).2.max_interventions = loc.max_interventions ∧
    (talkPhase o s loc).2.id = loc.id ∧
    (talkPhase o s loc).2.name = loc.name :=
  ⟨rfl, rfl, rfl, rfl⟩

theorem summarizeMemory_fields (t : String) (a : AgentSt) :
    (summarizeMemory t a).interventions_used = a.interventions_used ∧
    (summarizeMemory t a).max_interventions = a.max_interventions ∧
    (summarizeMemory t a).id = a.id := by
  simp only [summarizeMemory]
  split <;> exact ⟨rfl, rfl, rfl⟩

theorem maybeSummarize_mem (o : Oracles) (it : Nat) (ag : List AgentSt)
    (a : AgentSt) (h : a ∈ maybeSummarize o it ag) :
    ∃ b ∈ ag, a.interventions_used = b.interventions_used ∧
      a.max_interventions = b.max_interventions ∧ a.id = b.id := by
  simp only [maybeSummarize] at h
  split at h
  · obtain ⟨b, hb, rfl⟩ := List.mem_map.mp h
    exact ⟨b, hb, (summarizeMemory_fields _ b).1, (summarizeMemory_fields _ b).2.1,
      (summarizeMemory_fields _ b).2.2⟩
  · exact ⟨a, h, rfl, rfl, rfl⟩

theorem maybeSummarize_getElem (o : Oracles) (it : Nat) (ag : List AgentSt)
    (j : Nat) (b : AgentSt) (h : (maybeSummarize o it ag)[j]? = some b) :
    ∃ a, ag[j]? = some a ∧ b.interventions_used = a.interventions_used ∧
      b.max_interventions = a.max_interventions ∧ b.id = a.id := by
  simp only [maybeSummarize] at h
  split at h
  · rw [List.getElem?_map] at h
    cases ha : ag[j]? with
    | none => rw [ha] at h; cases h
    | some a =>
      rw [ha] at h
      obtain rfl : summarizeMemory (o.summary a.id) a = b := Option.some.inj h
      exact ⟨a, rfl, (summarizeMemory_fields _ a).1, (summarizeMemory_fields _ a).2.1,
        (summarizeMemory_fields _ a).2.2⟩
  · exact ⟨b, h, rfl, rfl, rfl⟩

theorem maybeSummarize_getElem_of (o : Oracles) (it : Nat) (ag : List AgentSt)
    (j : Nat) (a : AgentSt) (h : ag[j]? = some a) :
    ∃ b, (maybeSummarize o it ag)[j]? = some b ∧
      b.interventions_used = a.interventions_used ∧
      b.max_interventions = a.max_interventions ∧ b.id = a.id := by
  simp only [maybeSummarize]
  split
  · refine ⟨summarizeMemory (o.summary a.id) a, ?_, (summarizeMemory_fields _ a).1,
      (summarizeMemory_fields _ a).2.1, (summarizeMemory_fields _ a).2.2⟩
    rw [List.getElem?_map, h]
    rfl
  · exact ⟨a, h, rfl, rfl, rfl⟩

theorem buildAgents_length (t : String) (cap : Option Nat) (cfgs : List AgentCfg) :
    (buildAgents t cap cfgs).length = cfgs.length := by
  simp [buildAgents]

theorem buildAgents_getElem (t : String) (cap : Option Nat) (cfgs : List AgentCfg)
    (i : Nat) (a : AgentSt) (h : (buildAgents t cap cfgs)[i]? = some a) :
    a.id = i ∧ a.max_interventions = cap ∧ a.interventions_used = 0 := by
  simp only [buildAgents] at h
  rw [List.getElem?_map] at h
  have hi : i < cfgs.length := by
    by_contra hge
    rw [List.getElem?_eq_none (by simpa using Nat.le_of_not_lt hge)] at h
    cases h
  rw [List.getElem?_range hi] at h
  obtain rfl := Option.some.inj h
  exact ⟨rfl, rfl, rfl⟩

theorem buildAgents_mem (t : String) (cap : Option Nat) (cfgs : List AgentCfg)
    (a : AgentSt) (h : a ∈ buildAgents t cap cfgs) :
    a.max_interventions = cap ∧ a.interventions_used = 0 := by
  simp only [buildAgents] at h
  obtain ⟨idx, _, rfl⟩ := List.mem_map.mp h
  exact ⟨rfl, rfl⟩

theorem stopAfter_eq_none (o : Oracles) (s : Simulation) (ag : List AgentSt)
    (st1 : Option String) (h : stopAfter o s ag st1 = none) : st1 = none := by
  cases st1 with
  | none => rfl
  | some r => simp [stopAfter] at h

theorem stepCore_lists (o : Oracles) (s : Simulation) (mod0 : Moderator)
    (li : Nat) (loc : AgentSt) :
    (stepCore o s mod0 li loc).1.opiniones.length = s.opiniones.length + 1 ∧
    (stepCore o s mod0 li loc).1.intervenciones.length = s.intervenciones.length + 1 ∧
    (stepCore o s mod0 li loc).1.engagement_log.length = s.engagement_log.length + 1 := by
  refine ⟨by simp [stepCore], by simp [stepCore], ?_⟩
  simp [stepCore, roundOf, roundEngage_engagement]

theorem stepCore_mod (o : Oracles) (s : Simulation) (mod0 : Moderator)
    (li : Nat) (loc : AgentSt) :
    (stepCore o s mod0 li loc).1.mod = some (roundOf o s mod0 li loc).mod3 :=
  rfl

theorem stepCore_cap (o : Oracles) (s : Simulation) (mod0 : Moderator)
    (li : Nat) (loc : AgentSt) :
    (stepCore o s mod0 li loc).1.max_interventions_per_agent =
      s.max_interventions_per_agent :=
  rfl

theorem stepCore_agents (o : Oracles) (s : Simulation) (mod0 : Moderator)
    (li : Nat) (loc : AgentSt) :
    (stepCore o s mod0 li loc).1.agents =
      maybeSummarize o (stepCore o s mod0 li loc).1.iters
        (s.agents.set li (talkPhase o s loc).2) :=
  rfl

theorem stepCore_started (o : Oracles) (s : Simulation) (mod0 : Moderator)
    (li : Nat) (loc : AgentSt) :
    (stepCore o s mod0 li loc).1.started = s.started :=
  rfl

theorem stepCore_stop_cases (o : Oracles) (s : Simulation) (mod0 : Moderator)
    (li : Nat) (loc : AgentSt) :
    ((stepCore o s mod0 li loc).1.finished = true ∧
      (stepCore o s mod0 li loc).1.iters = s.iters ∧
      (stepCore o s mod0 li loc).1.locutor = s.locutor ∧
      stopAfter o s (s.agents.set li (talkPhase o s loc).2)
        (roundOf o s mod0 li loc).stopped ≠ none) ∨
    ((stepCore o s mod0 li loc).1.finished = false ∧
      (stepCore o s mod0 li loc).1.iters = s.iters + 1 ∧
      (stepCore o s mod0 li loc).1.locutor = (roundOf o s mod0 li loc).next ∧
      stopAfter o s (s.agents.set li (talkPhase o s loc).2)
        (roundOf o s mod0 li loc).stopped = none) := by
  cases hsa : stopAfter o s (s.agents.set li (talkPhase o s loc).2)
      (roundOf o s mod0 li loc).stopped with
  | some r =>
    left
    refine ⟨?_, ?_, ?_, by simp⟩ <;> simp [stepCore, hsa]
  | none =>
    right
    refine ⟨?_, ?_, ?_, rfl⟩ <;> simp [stepCore, hsa]

theorem getD_replicate_zero (n j : Nat) :
    (List.replicate n (0 : Nat)).getD j 0 = 0 := by
  rw [List.getD_eq_getElem?_getD]
  by_cases h : j < n
  · rw [List.getElem?_eq_getElem (by simpa using h)]
    simp
  · rw [List.getElem?_eq_none (by simpa using Nat.le_of_not_lt h)]
    rfl

theorem getD_bumpAt_self (xs : List Nat) (j : Nat) (h : j < xs.length) :
    (bumpAt xs j).getD j 0 = xs.getD j 0 + 1 := by
  rw [List.getD_eq_getElem?_getD, bumpAt_getElem?_self xs j h,
    List.getD_eq_getElem?_getD, List.getElem?_eq_getElem h]
  rfl

theorem getD_bumpAt_ne (xs : List Nat) (j i : Nat) (h : i ≠ j) :
    (bumpAt xs j).getD i 0 = xs.getD i 0 := by
  rw [List.getD_eq_getElem?_getD, bumpAt_getElem?_ne xs j i h,
    List.getD_eq_getElem?_getD]

theorem diversityTooHigh_false_of_iter (simM : Nat → Nat → ℚ)
    (agents : List AgentSt) (mi ci : ℤ) (t : ℚ) (h : ci < mi) :
    diversityTooHigh simM agents mi ci t = false := by
  simp only [diversityTooHigh]
  split
  · rfl
  · simp [decide_eq_false (not_le.mpr h)]

theorem stopAfter_none_of (o : Oracles) (s : Simulation) (ag : List AgentSt)
    (h0 : s.iters = 0) (h2 : 2 ≤ ag.length) (h3 : (2 : ℤ) ≤ s.max_iters) :
    stopAfter o s ag none = none := by
  have hlen : (2 : ℤ) ≤ (ag.length : ℤ) := by exact_mod_cast h2
  simp only [stopAfter]
  rw [diversityTooHigh_false_of_iter _ _ _ _ _ (by rw [h0]; push_cast; omega)]
  simp only [Bool.false_eq_true, if_false]
  rw [if_neg (by rw [h0]; push_cast; omega)]

theorem roundEngage_stopped_of_next_some (o : Oracles) (log : List (List String))
    (mod : Moderator) (el : List AgentSt) (s0 : Option String) (j : Nat)
    (h : (roundEngage o log mod el s0).next = some j) :
    (roundEngage o log mod el s0).stopped = none := by
  simp only [roundEngage] at h ⊢
  by_cases hcond : s0 = none ∧ el.length > 0
  · rw [if_pos hcond] at h ⊢
    show (if (selectNextSpeaker o.uIdx o.wIdx
        (update o.expf (fanOut o.intent el mod).2)).1 = none then
        some "No agents want to continue the debate" else s0) = none
    rw [if_neg (by rw [show (selectNextSpeaker o.uIdx o.wIdx
      (update o.expf (fanOut o.intent el mod).2)).1 = some j from h]; simp)]
    exact hcond.1
  · rw [if_neg hcond] at h
    cases h

/-- The history-length invariant of the orchestrator: content and engagement
histories stay aligned with the speaker history, which tracks the iteration
counter exactly while running and runs one ahead of it once finished. -/
def LenInv (s : Simulation) : Prop :=
  s.opiniones.length = s.intervenciones.length ∧
  s.engagement_log.length = s.intervenciones.length ∧
  (s.finished = false → s.intervenciones.length = s.iters) ∧
  (s.finished = true → s.intervenciones.length = s.iters + 1)

theorem lenInv_stepCore (o : Oracles) (s : Simulation) (mod0 : Moderator)
    (li : Nat) (loc : AgentSt) (h : LenInv s) (hfin : s.finished = false) :
    LenInv (stepCore o s mod0 li loc).1 := by
  obtain ⟨h1, h2, h3, h4⟩ := h
  have hlen := h3 hfin
  obtain ⟨hop, hint, heng⟩ := stepCore_lists o s mod0 li loc
  rcases stepCore_stop_cases o s mod0 li loc with ⟨hf, hi, _⟩ | ⟨hf, hi, _, _⟩
  · refine ⟨by rw [hop, hint, h1], by rw [heng, hint, h2], fun h5 => ?_, fun _ => ?_⟩
    · rw [hf] at h5
      cases h5
    · rw [hint, hi, hlen]
  · refine ⟨by rw [hop, hint, h1], by rw [heng, hint, h2], fun _ => ?_, fun h5 => ?_⟩
    · rw [hint, hi, hlen]
    · rw [hf] at h5
      cases h5

theorem lenInv_stepStarted (o : Oracles) (s : Simulation)
    (p : Simulation × Option StepResult) (h : LenInv s)
    (hst : s.stepStarted o = .ok p) : LenInv p.1 := by
  simp only [Simulation.stepStarted] at hst
  split at hst
  · obtain rfl := Except.ok.inj hst
    exact h
  · rename_i hnf
    split at hst
    · cases hst
    · split at hst
      · cases hst
      · split at hst
        · cases hst
        · obtain rfl := Except.ok.inj hst
          have hfin : s.finished = false := by simpa using hnf
          exact lenInv_stepCore o s _ _ _ h hfin

theorem lenInv_start (r : Nat) (s s1 : Simulation) (h : LenInv s)
    (hst : Simulation.start r s = .ok s1) : LenInv s1 := by
  simp only [Simulation.start] at hst
  split at hst
  · obtain rfl := Except.ok.inj hst
    exact h
  · split at hst
    · cases hst
    · obtain rfl := Except.ok.inj hst
      exact ⟨rfl, rfl, fun _ => rfl, fun hf => by cases hf⟩

theorem lenInv_step (o : Oracles) (s : Simulation)
    (p : Simulation × Option StepResult) (h : LenInv s)
    (hst : s.step o = .ok p) : LenInv p.1 := by
  simp only [Simulation.step] at hst
  split at hst
  · exact lenInv_stepStarted o s p h hst
  · cases hq : s.start o.openIdx with
    | error e => rw [hq] at hst; cases hst
    | ok s1 =>
      rw [hq] at hst
      simp only [Except.bind] at hst
      exact lenInv_stepStarted o s1 p (lenInv_start _ _ _ h hq) hst

theorem lenInv_stepN (os : Nat → Oracles) (k : Nat) (s s1 : Simulation)
    (h : LenInv s) (hst : stepN os k s = .ok s1) : LenInv s1 := by
  induction k generalizing s with
  | zero =>
    obtain rfl := Except.ok.inj hst
    exact h
  | succ k ih =>
    simp only [stepN] at hst
    cases hq : (s.step (os k)) with
    | error e => rw [hq] at hst; cases hst
    | ok p =>
      rw [hq] at hst
      simp only [Except.bind] at hst
      exact ih p.1 (lenInv_step _ _ _ h hq) hst

theorem idsOk_set_talk (o : Oracles) (s : Simulation) (li : Nat) (loc : AgentSt)
    (hid : ∀ (i : Nat) (a : AgentSt), s.agents[i]? = some a → a.id = i)
    (hagent : s.agents[li]? = some loc) :
    ∀ (i : Nat) (a : AgentSt),
      (s.agents.set li (talkPhase o s loc).2)[i]? = some a → a.id = i := by
  intro i a hia
  by_cases hi : i = li
  · subst hi
    have hlen : i < s.agents.length := (List.getElem?_eq_some_iff.mp hagent).1
    rw [List.getElem?_set_self hlen] at hia
    obtain rfl := Option.some.inj hia
    rw [(talkPhase_fields o s loc).2.2.1]
    exact hid i loc hagent
  · rw [List.getElem?_set_ne (fun hh => hi hh.symm)] at hia
    exact hid i a hia

/-- The per-agent budget invariant: the global cap is `m`, every agent
carries cap `m` and has spoken at most `max m 1` times, agent ids are their
indices, and while the simulation is running the active speaker (when set)
still has room below `max m 1` — so the next `talk` cannot push anyone
past that bound. -/
def CapOk (m : Nat) (s : Simulation) : Prop :=
  s.max_interventions_per_agent = some m ∧
  (∀ a ∈ s.agents, a.max_interventions = some m ∧ a.interventions_used ≤ max m 1) ∧
  (∀ (i : Nat) (a : AgentSt), s.agents[i]? = some a → a.id = i) ∧
  (s.finished = false → ∀ j : Nat, s.locutor = some j →
    ∃ a, s.agents[j]? = some a ∧ a.interventions_used < max m 1)

theorem capOk_stepCore (o : Oracles) (s : Simulation) (mod0 : Moderator)
    (li : Nat) (loc : AgentSt) (m : Nat) (h : CapOk m s)
    (hfin : s.finished = false) (hloc : s.locutor = some li)
    (hagent : s.agents[li]? = some loc) :
    CapOk m (stepCore o s mod0 li loc).1 := by
  obtain ⟨hcap, hag, hid, hlocok⟩ := h
  obtain ⟨locA, hgetA, hltA0⟩ := hlocok hfin li hloc
  rw [hagent] at hgetA
  have hltA : loc.interventions_used < max m 1 := by
    rw [Option.some.inj hgetA]
    exact hltA0
  have hlocMem : loc ∈ s.agents := mem_of_getElemOpt hagent
  have F1 : ∀ a ∈ s.agents.set li (talkPhase o s loc).2,
      a.max_interventions = some m ∧ a.interventions_used ≤ max m 1 := by
    intro a ha
    rcases List.mem_or_eq_of_mem_set ha with h1 | h1
    · exact hag a h1
    · subst h1
      rw [(talkPhase_fields o s loc).2.1, (talkPhase_fields o s loc).1]
      exact ⟨(hag loc hlocMem).1, hltA⟩
  have F2 := idsOk_set_talk o s li loc hid hagent
  refine ⟨by rw [stepCore_cap]; exact hcap, ?_, ?_, ?_⟩
  · intro a ha
    rw [stepCore_agents] at ha
    obtain ⟨b, hb, e1, e2, _⟩ := maybeSummarize_mem _ _ _ a ha
    obtain ⟨hb1, hb2⟩ := F1 b hb
    exact ⟨by rw [e2, hb1], by rw [e1]; exact hb2⟩
  · intro i a hia
    rw [stepCore_agents] at hia
    obtain ⟨b, hb, _, _, e3⟩ := maybeSummarize_getElem _ _ _ _ _ hia
    rw [e3]
    exact F2 i b hb
  · intro hfin2 j hloc2
    rcases stepCore_stop_cases o s mod0 li loc with ⟨hf, _, _⟩ | ⟨hf, _, hl2, _⟩
    · rw [hf] at hfin2
      cases hfin2
    · rw [hl2] at hloc2
      obtain ⟨_, hmem⟩ := roundEngage_next_some o s.engagement_log (resetRequests mod0)
        (eligOf o s li loc) (stopped0Of s (eligOf o s li loc)) j hloc2
      rcases hmem with hmem | ⟨a, haEl, haid, hci⟩
      · exact absurd hmem (List.not_mem_nil j)
      · simp only [eligOf, eligibleOf, List.mem_filter] at haEl
        obtain ⟨haMem1, _⟩ := haEl
        obtain ⟨hacap, _⟩ := F1 a haMem1
        have hlt2 : a.interventions_used < m := by
          simpa [canIntervene, hacap] using hci
        have hm1 : max m 1 = m := Nat.max_eq_left (by omega)
        obtain ⟨i0, hi0⟩ := List.getElem?_of_mem haMem1
        have : a.id = i0 := F2 i0 a hi0
        rw [this] at haid
        subst haid
        obtain ⟨b, hb, e1, _, _⟩ := maybeSummarize_getElem_of o
          (stepCore o s mod0 li loc).1.iters _ i0 a hi0
        refine ⟨b, ?_, ?_⟩
        · rw [stepCore_agents]
          exact hb
        · rw [e1, hm1]
          exact hlt2

theorem capOk_start (r : Nat) (s s1 : Simulation) (m : Nat) (h : CapOk m s)
    (hst : Simulation.start r s = .ok s1) : CapOk m s1 := by
  have hcap := h.1
  simp only [Simulation.start] at hst
  split at hst
  · obtain rfl := Except.ok.inj hst
    exact h
  · split at hst
    · cases hst
    · rename_i hne
      obtain rfl := Except.ok.inj hst
      refine ⟨hcap, ?_, ?_, ?_⟩
      · intro a ha
        obtain ⟨h1, h2⟩ := buildAgents_mem _ _ _ a ha
        rw [h1, h2, hcap]
        exact ⟨rfl, Nat.zero_le _⟩
      · intro i a hia
        exact (buildAgents_getElem _ _ _ i a hia).1
      · intro _ j hj
        obtain rfl : r % (buildAgents s.topic s.max_interventions_per_agent
            s.agent_configs).length = j := Option.some.inj hj
        have hlen : 0 < (buildAgents s.topic s.max_interventions_per_agent
            s.agent_configs).length := Nat.pos_of_ne_zero hne
        have hlt := Nat.mod_lt r hlen
        refine ⟨_, List.getElem?_eq_getElem hlt, ?_⟩
        have := (buildAgents_getElem _ _ _ _ _ (List.getElem?_eq_getElem hlt)).2.2
        rw [this]
        exact Nat.lt_of_lt_of_le Nat.zero_lt_one (Nat.le_max_right m 1)

theorem capOk_stepStarted (o : Oracles) (s : Simulation)
    (p : Simulation × Option StepResult) (m : Nat) (h : CapOk m s)
    (hst : s.stepStarted o = .ok p) : CapOk m p.1 := by
  simp only [Simulation.stepStarted] at hst
  split at hst
  · obtain rfl := Except.ok.inj hst
    exact h
  · rename_i hnf
    split at hst
    · cases hst
    · split at hst
      · cases hst
      · rename_i li hloc
        split at hst
        · cases hst
        · rename_i loc hagent
          obtain rfl := Except.ok.inj hst
          have hfin : s.finished = false := by simpa using hnf
          exact capOk_stepCore o s _ li loc m h hfin hloc hagent

theorem capOk_step (o : Oracles) (s : Simulation)
    (p : Simulation × Option StepResult) (m : Nat) (h : CapOk m s)
    (hst : s.step o = .ok p) : CapOk m p.1 := by
  simp only [Simulation.step] at hst
  split at hst
  · exact capOk_stepStarted o s p m h hst
  · cases hq : s.start o.openIdx with
    | error e => rw [hq] at hst; cases hst
    | ok s1 =>
      rw [hq] at hst
      simp only [Except.bind] at hst
      exact capOk_stepStarted o s1 p m (capOk_start _ _ _ m h hq) hst

theorem capOk_stepN (os : Nat → Oracles) (k : Nat) (s s1 : Simulation) (m : Nat)
    (h : CapOk m s) (hst : stepN os k s = .ok s1) : CapOk m s1 := by
  induction k generalizing s with
  | zero =>
    obtain rfl := Except.ok.inj hst
    exact h
  | succ k ih =>
    simp only [stepN] at hst
    cases hq : (s.step (os k)) with
    | error e => rw [hq] at hst; cases hst
    | ok p =>
      rw [hq] at hst
      simp only [Except.bind] at hst
      exact ih p.1 (capOk_step _ _ _ m h hq) hst

/-- The simulation state `start` produces from a fresh `Simulation.init` (the
agents built, bias defaulted, moderator constructed, opening speaker drawn as
`r mod n`). -/
def startedSim (t : String) (cfgs : List AgentCfg) (mi : ℤ) (b : Option (List ℚ))
    (st : String) (cap : Option Nat) (r : Nat) : Simulation :=
  { topic := t
    agent_configs := cfgs
    max_iters := mi
    bias := some (b.getD (List.replicate (buildAgents t cap cfgs).length 1))
    stance := st
    max_interventions_per_agent := cap
    iters := 0
    intervenciones := []
    engagement_log := []
    opiniones := []
    agents := buildAgents t cap cfgs
    mod := some (Moderator.init (buildAgents t cap cfgs).length st
      (b.getD (List.replicate (buildAgents t cap cfgs).length 1)) cap)
    locutor := some (r % (buildAgents t cap cfgs).length)
    started := true
    finished := false }

/-- On a fresh simulation with at least one agent, `start` succeeds and
yields `startedSim`. -/
theorem start_init_ok (t : String) (cfgs : List AgentCfg) (mi : ℤ)
    (b : Option (List ℚ)) (st : String) (cap : Option Nat) (r : Nat)
    (hne : cfgs.length ≠ 0) :
    Simulation.start r (Simulation.init t cfgs mi b st cap) =
      .ok (startedSim t cfgs mi b st cap r) := by
  simp only [Simulation.start, Simulation.init, startedSim]
  rw [if_neg (by simp)]
  rw [if_neg (by rw [buildAgents_length]; exact hne)]

end Debate
namespace Debate

theorem stepStarted_of_some (o : Oracles) (s : Simulation) (mod0 : Moderator)
    (li : Nat) (loc : AgentSt) (hfin : s.finished = false)
    (hmod : s.mod = some mod0) (hloc : s.locutor = some li)
    (hagent : s.agents[li]? = some loc) :
    s.stepStarted o =
      .ok ((stepCore o s mod0 li loc).1, some (stepCore o s mod0 li loc).2) := by
  simp only [Simulation.stepStarted, hfin, hmod, hloc, hagent]
  rw [if_neg (by simp)]

/-! ### Claims -/

/-- C4.  Whenever `requests` is non-empty, `Moderator.update` (the spec's
`recompute_weights`) stores a weights vector aligned one-to-one with
`requests` that sums exactly to 1 (the floating tolerance of the claim is
exact equality over `ℚ`), for every model `expf` of `np.exp` — in
particular for arbitrarily degenerate fairness/desire inputs, thanks to the
clipping and the uniform-ones fallback; when `requests` is empty the stored
weights become empty.  The hypothesis `hlen` states the alignment of
`desire_weights` with `requests` that `add_request`/`reset_requests`
guarantee. -/
theorem claim4_recompute_weights_normalized (expf : ℚ → ℚ) (st : Moderator)
    (hlen : st.desire_weights = [] ∨ st.desire_weights.length = st.requests.length) :
    (update expf st).weights.length = st.requests.length ∧
    (st.requests = [] → (update expf st).weights = []) ∧
    (st.requests ≠ [] → (update expf st).weights.sum = 1) := by
  by_cases hre : st.requests = []
  · simp [update, hre]
  · have hl := length_combinedVec expf st hlen
    have hcne : combinedVec expf st ≠ [] := by
      intro hnil
      rw [hnil] at hl
      exact hre (List.length_eq_zero.mp hl.symm)
    refine ⟨?_, fun hco => absurd hco hre, fun _ => ?_⟩
    · simp only [update, if_neg hre]
      rw [length_normalizeFallback, hl]
    · simp only [update, if_neg hre]
      exact sum_normalizeFallback _ hcne

/-- Witness for C4 at a concrete moderator state with one request. -/
theorem claim4_witness :
    (update (fun _ => 1) (addRequest (Moderator.init 2 "" [1, 1] none) 0 (1 / 2))).weights.length = 1 ∧
    (update (fun _ => 1) (addRequest (Moderator.init 2 "" [1, 1] none) 0 (1 / 2))).weights.sum = 1 := by
  have h := claim4_recompute_weights_normalized (fun _ => 1)
    (addRequest (Moderator.init 2 "" [1, 1] none) 0 (1 / 2)) (by right; rfl)
  exact ⟨h.1, h.2.2 (by decide)⟩

/-- C5.  `select_next_speaker` returns `None` iff `requests` is empty at call
time (the embedding is a total function: the `random.choices` call is guarded
by the weight checks, so no error path exists); when `requests` is non-empty
it returns one of the requesters and increments the moderator's cumulative
`interventions` entry of the chosen agent by exactly 1, leaving every other
entry (and the requests and weights) unchanged.  `hids` states that requester
ids index the interventions array, as holds for every moderator built by the
simulation. -/
theorem claim5_select_next_speaker_spec (u w : Nat) (st : Moderator)
    (hids : ∀ j ∈ st.requests, j < st.interventions.length) :
    ((selectNextSpeaker u w st).1 = none ↔ st.requests = []) ∧
    ∀ j, (selectNextSpeaker u w st).1 = some j →
      j ∈ st.requests ∧
      (selectNextSpeaker u w st).2.interventions.length = st.interventions.length ∧
      (selectNextSpeaker u w st).2.interventions[j]? = (st.interventions[j]?).map (· + 1) ∧
      (∀ i, i ≠ j → (selectNextSpeaker u w st).2.interventions[i]? = st.interventions[i]?) ∧
      (selectNextSpeaker u w st).2.requests = st.requests ∧
      (selectNextSpeaker u w st).2.weights = st.weights := by
  by_cases h : st.requests = []
  · rw [selectNextSpeaker_nil u w st h]
    exact ⟨by simp [h], fun j hj => by cases hj⟩
  · obtain ⟨c, hc, hsel⟩ := selectNextSpeaker_of_ne u w st h
    rw [hsel]
    refine ⟨by simp [h], fun j hj => ?_⟩
    obtain rfl : c = j := Option.some.inj hj
    exact ⟨hc, length_bumpAt _ _, bumpAt_getElem?_self _ _ (hids c hc),
      fun i hij => bumpAt_getElem?_ne _ _ _ hij, rfl, rfl⟩

/-- Witness for C5 at a concrete moderator state with one request. -/
theorem claim5_witness :
    ((selectNextSpeaker 0 0 (addRequest (Moderator.init 2 "" [1, 1] none) 0 (1 / 2))).1 = none ↔
      (addRequest (Moderator.init 2 "" [1, 1] none) 0 (1 / 2)).requests = []) ∧
    (0 ∈ (addRequest (Moderator.init 2 "" [1, 1] none) 0 (1 / 2)).requests) := by
  have h := claim5_select_next_speaker_spec 0 0
    (addRequest (Moderator.init 2 "" [1, 1] none) 0 (1 / 2)) (by decide)
  exact ⟨h.1, (h.2 0 (by decide)).1⟩

/-- C6.  `diversity_too_high` (the spec's `is_converged`) is a pure read-only
function (the embedding takes no state and returns only the flag, mirroring a
method body with no assignment), and it returns true iff at least 2 agents
have a non-empty `last_opinion` AND the code's off-diagonal average of the
pairwise similarity matrix exceeds the threshold AND
`current_iter >= min_iters`; in particular it is false whenever fewer than 2
opinions exist, regardless of the threshold and iteration arguments. -/
theorem claim6_is_converged_characterization (simM : Nat → Nat → ℚ)
    (agents : List AgentSt) (minIters currentIter : ℤ) (threshold : ℚ) :
    diversityTooHigh simM agents minIters currentIter threshold = true ↔
      2 ≤ (lastOpinions agents).length ∧
      offDiagAvg simM (lastOpinions agents).length > threshold ∧
      currentIter ≥ minIters := by
  simp only [diversityTooHigh]
  by_cases h : (lastOpinions agents).length < 2
  · have h2 : ¬ 2 ≤ (lastOpinions agents).length := by omega
    simp [if_pos h, h2]
  · have h2 : 2 ≤ (lastOpinions agents).length := by omega
    rw [if_neg h]
    simp [h2, and_assoc]

/-- Counterexample for C7: a single `add_request` call (one registration)
appends the agent to `requests` but leaves `hands_raised` at all zeros — it
does not increment `hands_raised[agent.id]`, contradicting the claim that
`hands_raised[i]` counts registrations regardless of whether `update`
(recompute_weights) is called. -/
theorem claim7_counterexample :
    (addRequest (Moderator.init 2 "" [1, 1] none) 0 (1 / 2)).requests = [0] ∧
    (addRequest (Moderator.init 2 "" [1, 1] none) 0 (1 / 2)).hands_raised = [0, 0] ∧
    (addRequest (Moderator.init 2 "" [1, 1] none) 0 (1 / 2)).hands_raised[0]? ≠ some 1 := by
  refine ⟨rfl, rfl, by decide⟩

/-- C7 as amended.  `add_request` appends the agent to `requests` and its
eagerness to `desire_weights` and leaves `hands_raised` (and `interventions`)
unchanged; the increment happens in `update` (recompute_weights): when
`requests` is non-empty, `update` adds to `hands_raised[i]` the number of
occurrences of `i` in the current `requests` (one per registration), and when
`requests` is empty it leaves `hands_raised` unchanged.  Hence
`hands_raised[i]` counts the registrations of agent `i` processed by `update`
calls, not the `add_request` calls themselves. -/
theorem claim7_amended (st : Moderator) (a : Nat) (wt : ℚ) (expf : ℚ → ℚ)
    (hv : ∀ j ∈ st.requests, j < st.hands_raised.length) :
    (addRequest st a wt).requests = st.requests ++ [a] ∧
    (addRequest st a wt).desire_weights = st.desire_weights ++ [wt] ∧
    (addRequest st a wt).hands_raised = st.hands_raised ∧
    (addRequest st a wt).interventions = st.interventions ∧
    (st.requests ≠ [] → ∀ i,
      (update expf st).hands_raised[i]? =
        (st.hands_raised[i]?).map (· + st.requests.count i)) ∧
    (st.requests = [] → (update expf st).hands_raised = st.hands_raised) := by
  refine ⟨rfl, rfl, rfl, rfl, fun h i => ?_, fun h => by simp [update, h]⟩
  simp only [update, if_neg h]
  exact foldl_bumpAt_getElem? _ _ _ hv

/-- Witness for C7 (amended) at a concrete state with one registration. -/
theorem claim7_witness :
    (update (fun _ => 1) (addRequest (Moderator.init 2 "" [1, 1] none) 0 (1 / 2))).hands_raised[0]? = some 1 := by
  have h := (claim7_amended (addRequest (Moderator.init 2 "" [1, 1] none) 0 (1 / 2))
    1 1 (fun _ => 1) (by decide)).2.2.2.2.1 (by decide) 0
  rw [h]
  rfl

/-- C8.  For an agent whose `can_intervene` is false, `propose`
(assess_intent) returns `raise_hand = false` and `desire_to_speak = 0`
immediately (with the blocked marker), without invoking the reasoning
backend — the result is the same for every backend oracle — and without
mutating any agent state (the returned agent is unchanged). -/
theorem claim8_blocked_propose (o1 o2 : Except String IntentOut) (a : AgentSt)
    (h : canIntervene a = false) :
    propose o1 a = .ok (⟨false, 0, true⟩, a) ∧ propose o1 a = propose o2 a := by
  constructor
  · simp [propose, h]
  · simp [propose, h]

/-- C9.  A raising intent backend is isolated: (1) running a round is
indistinguishable from running it with every raising backend call replaced by
"does not raise a hand" (so the failing agent is treated exactly as not
raising and never registered, while all other agents' proposals are still
collected and the round completes); and (2) if every agent named `X` has a
raising backend this round, then `X` is absent from the round's `engaged`
list. -/
theorem claim9_intent_errors_isolated (o : Oracles) (s : Simulation) (X e : String)
    (hst : s.started = true)
    (hX : ∀ a ∈ s.agents, a.name = X → o.intent a.id = .error e) :
    s.step o = s.step { o with intent := recoverIntent o.intent } ∧
    ∀ s2 r, s.step o = .ok (s2, some r) → X ∉ r.engaged := by
  have hstep : s.step o = s.stepStarted o := by
    simp [Simulation.step, hst]
  have hstep2 : s.step { o with intent := recoverIntent o.intent } =
      s.stepStarted { o with intent := recoverIntent o.intent } := by
    simp [Simulation.step, hst]
  constructor
  · rw [hstep, hstep2]
    simp only [Simulation.stepStarted, stepCore_recover]
  · intro s2 r hsr
    rw [hstep] at hsr
    simp only [Simulation.stepStarted] at hsr
    split at hsr
    · have h2 : (none : Option StepResult) = some r :=
        (Prod.mk.injEq .. |>.mp (Except.ok.inj hsr)).2
      cases h2
    · split at hsr
      · cases hsr
      · rename_i mod0 hmod
        split at hsr
        · cases hsr
        · rename_i li hloc
          split at hsr
          · cases hsr
          · rename_i loc hagent
            simp only [Except.ok.injEq, Prod.mk.injEq, Option.some.injEq] at hsr
            obtain ⟨hs2, hr⟩ := hsr
            intro hmem
            rw [← hr] at hmem
            have hmem2 := roundEngage_compr_sub _ _ _ _ _ X hmem
            rcases fanOut_fst_mem o.intent _ _ X hmem2 with ⟨a, ha, hname, hci, q, hq, _⟩
            simp only [eligOf, eligibleOf, List.mem_filter] at ha
            obtain ⟨haMem, hpred⟩ := ha
            rcases List.mem_or_eq_of_mem_set haMem with haOld | haLoc
            · have herr := hX a haOld hname
              rw [herr] at hq
              exact Except.noConfusion hq
            · have hlocMem : loc ∈ s.agents := mem_of_getElemOpt hagent
              have herr : o.intent a.id = .error e := by
                have h1 : loc.name = X := by
                  rw [← hname, haLoc]
                  exact rfl
                have h2 := hX loc hlocMem h1
                rw [haLoc]
                exact h2
              rw [herr] at hq
              exact Except.noConfusion hq

/-- A deterministic oracle assignment used by the concrete scenarios below:
every backend call succeeds and returns fixed values. -/
def oBase : Oracles :=
  { openIdx := 0
    talkDraft := "draft"
    talkCorrected := "crit"
    intent := fun _ => .ok ⟨true, 1 / 2⟩
    expf := fun _ => 1
    uIdx := 0
    wIdx := 0
    simM := fun _ _ => 0
    summary := fun _ => "sum" }

/-- An oracle assignment where no agent ever raises a hand (the weighted
machinery is bypassed, keeping concrete runs kernel-computable). -/
def oNoHand : Oracles :=
  { openIdx := 0
    talkDraft := "draft"
    talkCorrected := "crit"
    intent := fun _ => .ok ⟨false, 0⟩
    expf := fun _ => 1
    uIdx := 0
    wIdx := 0
    simM := fun _ _ => 0
    summary := fun _ => "sum" }

/-- The state after one step of a two-agent simulation with cap 1 where
nobody raises a hand: the round finishes with "no one wants to continue". -/
def capOneStopSim : Simulation :=
  { topic := "t"
    agent_configs := [⟨"A", "a"⟩, ⟨"B", "b"⟩]
    max_iters := 21
    bias := some [1, 1]
    stance := ""
    max_interventions_per_agent := some 1
    iters := 0
    intervenciones := ["A"]
    engagement_log := [[]]
    opiniones := ["crit"]
    agents := [⟨0, "A", "t", "a", ["sum"], 3, "crit", some 1, 1⟩,
      ⟨1, "B", "t", "b", [], 3, "", some 1, 0⟩]
    mod := some
      { requests := []
        desire_weights := []
        interventions := [0, 0]
        hands_raised := [0, 0]
        weights := []
        bias := [1, 1]
        stance := ""
        max_interventions_per_agent := some 1 }
    locutor := some 0
    started := true
    finished := true }


/-- C1 as amended.  For every simulation built by the dataclass constructor
with global cap `m`, after any number of `step()` calls every agent's
`interventions_used` is at most `max m 1`; in particular when `m ≥ 1` the cap
is never exceeded.  (For `m = 0` the opening speaker still speaks exactly
once — see the counterexample — which is what weakens the bound to
`max m 1`.) -/
theorem claim1_amended_cap_bound (t : String) (cfgs : List AgentCfg) (mi : ℤ)
    (b : Option (List ℚ)) (st : String) (m : Nat) (os : Nat → Oracles) (k : Nat)
    (s1 : Simulation)
    (h : stepN os k (Simulation.init t cfgs mi b st (some m)) = .ok s1) :
    ∀ a ∈ s1.agents, a.interventions_used ≤ max m 1 ∧
      (1 ≤ m → a.interventions_used ≤ m) := by
  have hinv : CapOk m (Simulation.init t cfgs mi b st (some m)) := by
    refine ⟨rfl, ?_, ?_, ?_⟩
    · intro a ha
      exact absurd ha (List.not_mem_nil a)
    · intro i a hia
      rw [show (Simulation.init t cfgs mi b st (some m)).agents = [] from rfl] at hia
      simp at hia
    · intro _ j hj
      exact absurd hj (by simp [Simulation.init])
  have h2 := capOk_stepN os k _ s1 m hinv h
  intro a ha
  obtain ⟨_, hle⟩ := h2.2.1 a ha
  refine ⟨hle, fun h1 => ?_⟩
  rw [Nat.max_eq_left h1] at hle
  exact hle

/-- Witness for C1 (amended): after one step of a two-agent cap-1 run the
opening speaker is within the bound. -/
theorem claim1_witness :
    (⟨0, "A", "t", "a", ["sum"], 3, "crit", some 1, 1⟩ : AgentSt).interventions_used ≤
      max 1 1 ∧
    (1 ≤ 1 →
      (⟨0, "A", "t", "a", ["sum"], 3, "crit", some 1, 1⟩ : AgentSt).interventions_used ≤ 1) :=
  claim1_amended_cap_bound "t" [⟨"A", "a"⟩, ⟨"B", "b"⟩] 21 none "" 1
    (fun _ => oNoHand) 1 capOneStopSim (by decide)
    ⟨0, "A", "t", "a", ["sum"], 3, "crit", some 1, 1⟩ (by decide)

/-- Counterexample for C1: with a per-agent cap of 0 and two agents, after a
single `step()` on a freshly started simulation the opening speaker (index 0)
has `interventions_used = 1 > 0 = max_interventions` — the opening speaker is
appointed and speaks without a budget check, so the cap is exceeded. -/
theorem claim1_counterexample :
    (stepN (fun _ => oBase) 1
        (Simulation.init "t" [⟨"A", "a"⟩, ⟨"B", "b"⟩] 21 none "" (some 0))).map
        (fun s => s.agents.map fun a => (a.max_interventions, a.interventions_used)) =
      .ok [(some 0, 1), (some 0, 0)] ∧
    (stepN (fun _ => oBase) 1
        (Simulation.init "t" [⟨"A", "a"⟩, ⟨"B", "b"⟩] 21 none "" (some 0))).map
        (fun s => s.agents.all fun a =>
          match a.max_interventions with
          | none => true
          | some c => decide (a.interventions_used ≤ c)) = .ok false := by
  constructor <;> rfl

/-- C2 as amended.  For every simulation built by the dataclass constructor,
after any number of `step()` calls the three history lengths (speakers,
contents, per-round engagement) are equal; they equal `iters` as long as the
simulation is not finished, and `iters + 1` once it is finished — the
finishing step appends to the histories but does not increment `iters`. -/
theorem claim2_amended_history_lengths (t : String) (cfgs : List AgentCfg)
    (mi : ℤ) (b : Option (List ℚ)) (st : String) (cap : Option Nat)
    (os : Nat → Oracles) (k : Nat) (s1 : Simulation)
    (h : stepN os k (Simulation.init t cfgs mi b st cap) = .ok s1) :
    s1.opiniones.length = s1.intervenciones.length ∧
    s1.engagement_log.length = s1.intervenciones.length ∧
    (s1.finished = false → s1.intervenciones.length = s1.iters) ∧
    (s1.finished = true → s1.intervenciones.length = s1.iters + 1) :=
  lenInv_stepN os k _ s1 ⟨rfl, rfl, fun _ => rfl, fun hf => by cases hf⟩ h



/-- Witness for C2 (amended) on a concrete one-step run that finishes. -/
theorem claim2_witness :
    capOneStopSim.opiniones.length = capOneStopSim.intervenciones.length ∧
    capOneStopSim.engagement_log.length = capOneStopSim.intervenciones.length ∧
    (capOneStopSim.finished = false →
      capOneStopSim.intervenciones.length = capOneStopSim.iters) ∧
    (capOneStopSim.finished = true →
      capOneStopSim.intervenciones.length = capOneStopSim.iters + 1) :=
  claim2_amended_history_lengths "t" [⟨"A", "a"⟩, ⟨"B", "b"⟩] 21 none "" (some 1)
    (fun _ => oNoHand) 1 capOneStopSim (by decide)

/-- Counterexample for C2: with `max_iters = 1`, the first `step()` marks the
simulation finished but does not increment `iters`, so all three history
lengths equal 1 while `iters = 0` — the claimed equality fails after the
finishing step. -/
theorem claim2_counterexample :
    (stepN (fun _ => oBase) 1
        (Simulation.init "t" [⟨"A", "a"⟩, ⟨"B", "b"⟩] 1 none "" none)).map
        (fun s => (s.finished, s.iters, s.intervenciones.length, s.opiniones.length,
          s.engagement_log.length)) = .ok (true, 0, 1, 1, 1) ∧
    (stepN (fun _ => oBase) 1
        (Simulation.init "t" [⟨"A", "a"⟩, ⟨"B", "b"⟩] 1 none "" none)).map
        (fun s => decide (s.intervenciones.length = s.iters)) = .ok false := by
  constructor <;> rfl

/-- C3 (code bug).  With a single agent and no global cap, the eligible set
is empty but no cap is configured, so the round takes the no-fan-out branch
with `next_locutor = None` — and the `next is None → "no one wants to
continue"` check is inside the fan-out branch, so no stop reason is set: the
step returns unfinished with `stopped_reason = None` and the active speaker
unset, and the following `step()` raises `AttributeError` instead of
finishing the debate. -/
theorem claim3_missing_stop_reason_bug :
    ((Simulation.init "t" [⟨"A", "a"⟩] 21 none "" none).step oBase).map
        (fun p => (p.1.finished, p.1.locutor, p.2.map StepResult.stopped_reason)) =
      .ok (false, none, some none) ∧
    stepN (fun _ => oBase) 2 (Simulation.init "t" [⟨"A", "a"⟩] 21 none "" none) =
      .error "AttributeError: NoneType has no attribute talk" := by
  constructor <;> rfl

/-- Oracle assignment for the C9 witness: the intent backend of agent id 1
(named "B") raises, every other call succeeds. -/
def wit9O : Oracles :=
  { openIdx := 0
    talkDraft := "d"
    talkCorrected := "c"
    intent := fun j => if j = 1 then .error "boom" else .ok ⟨true, 1⟩
    expf := fun _ => 1
    uIdx := 0
    wIdx := 0
    simM := fun _ _ => 0
    summary := fun _ => "s" }

/-- A started three-agent simulation (as `start` with opening index 0 builds
it) for the C9 witness. -/
def wit9Sim : Simulation :=
  { Simulation.init "t" [⟨"A", "a"⟩, ⟨"B", "b"⟩, ⟨"C", "c"⟩] 21 none "" none with
    agents := buildAgents "t" none [⟨"A", "a"⟩, ⟨"B", "b"⟩, ⟨"C", "c"⟩]
    bias := some [1, 1, 1]
    mod := some (Moderator.init 3 "" [1, 1, 1] none)
    locutor := some 0
    started := true }

/-- Witness for C9: agent "B" (id 1) raises during intent assessment; the
round is identical to the one where "B" answers "no hand", and the engaged
list contains exactly the other responding agent. -/
theorem claim9_witness :
    Simulation.step wit9O wit9Sim =
      Simulation.step { wit9O with intent := recoverIntent wit9O.intent } wit9Sim ∧
    (Simulation.step wit9O wit9Sim).map (fun p => p.2.map StepResult.engaged) =
      .ok (some ["C"]) := by
  refine ⟨(claim9_intent_errors_isolated wit9O wit9Sim "B" "boom" rfl (by decide)).1, ?_⟩
  rfl

/-- Witness for C8: an agent at its cap of 0. -/
theorem claim8_witness :
    propose (.ok ⟨true, 1⟩) ⟨0, "A", "t", "p", [], 3, "", some 0, 0⟩ =
      .ok (⟨false, 0, true⟩, ⟨0, "A", "t", "p", [], 3, "", some 0, 0⟩) ∧
    propose (.ok ⟨true, 1⟩) ⟨0, "A", "t", "p", [], 3, "", some 0, 0⟩ =
      propose (.error "backend down") ⟨0, "A", "t", "p", [], 3, "", some 0, 0⟩ :=
  claim8_blocked_propose (.ok ⟨true, 1⟩) (.error "backend down")
    ⟨0, "A", "t", "p", [], 3, "", some 0, 0⟩ (by decide)

/-- C10.  The moderator's cumulative `interventions[]` array counts only
selections made by `select_next_speaker`, never speeches: after the first
completed `step()` of a fresh simulation (with at least 2 agents and an
iteration budget of at least 2), the opening speaker at index
`openIdx % agent_count` has `interventions_used = 1`, while the moderator's
`interventions` array is zero everywhere except for a single 1 at the
selected next speaker (when one was selected — it is the new active speaker
of the unfinished simulation); in particular the opening speech itself is
never counted there. -/
theorem claim10_interventions_count_selections (t : String) (cfgs : List AgentCfg)
    (mi : ℤ) (b : Option (List ℚ)) (st : String) (cap : Option Nat) (o : Oracles)
    (s2 : Simulation) (res : StepResult)
    (hn : 2 ≤ cfgs.length) (hmi : (2 : ℤ) ≤ mi)
    (h : (Simulation.init t cfgs mi b st cap).step o = .ok (s2, some res)) :
    (∃ a, s2.agents[o.openIdx % cfgs.length]? = some a ∧ a.interventions_used = 1) ∧
    (∀ mo, s2.mod = some mo → ∀ j : Nat, mo.interventions.getD j 0 =
      if s2.finished = false ∧ s2.locutor = some j then 1 else 0) := by
  have hne : cfgs.length ≠ 0 := by omega
  have hbl := buildAgents_length t cap cfgs
  simp only [Simulation.step] at h
  rw [if_neg (by simp [Simulation.init])] at h
  rw [start_init_ok t cfgs mi b st cap o.openIdx hne] at h
  simp only [Except.bind] at h
  have hlt : o.openIdx % (buildAgents t cap cfgs).length <
      (buildAgents t cap cfgs).length :=
    Nat.mod_lt _ (by rw [hbl]; omega)
  have hagEq : (startedSim t cfgs mi b st cap o.openIdx).agents =
      buildAgents t cap cfgs := rfl
  cases hga : (startedSim t cfgs mi b st cap o.openIdx).agents[o.openIdx %
      (buildAgents t cap cfgs).length]? with
  | none =>
    rw [hagEq, List.getElem?_eq_getElem hlt] at hga
    cases hga
  | some loc =>
    rw [stepStarted_of_some o _ (Moderator.init (buildAgents t cap cfgs).length st
      (b.getD (List.replicate (buildAgents t cap cfgs).length 1)) cap)
      (o.openIdx % (buildAgents t cap cfgs).length) loc rfl rfl rfl hga] at h
    simp only [Except.ok.injEq, Prod.mk.injEq, Option.some.injEq] at h
    obtain ⟨hs2, hres⟩ := h
    subst hs2
    have hga2 : (buildAgents t cap cfgs)[o.openIdx %
        (buildAgents t cap cfgs).length]? = some loc := by
      rw [← hagEq]
      exact hga
    obtain ⟨hlid, hlcap, hlused⟩ := buildAgents_getElem t cap cfgs _ loc hga2
    constructor
    · have hset : ((startedSim t cfgs mi b st cap o.openIdx).agents.set
          (o.openIdx % (buildAgents t cap cfgs).length)
          (talkPhase o (startedSim t cfgs mi b st cap o.openIdx) loc).2)[(o.openIdx %
            (buildAgents t cap cfgs).length)]? =
          some (talkPhase o (startedSim t cfgs mi b st cap o.openIdx) loc).2 :=
        List.getElem?_set_self (by rw [hagEq]; exact hlt)
      obtain ⟨bb, hbb, e1, _, _⟩ := maybeSummarize_getElem_of o _ _ _ _ hset
      refine ⟨bb, ?_, ?_⟩
      · rw [← hbl, stepCore_agents]
        exact hbb
      · rw [e1, (talkPhase_fields o _ loc).1, hlused]
    · intro mo hmo j
      rw [stepCore_mod] at hmo
      obtain rfl := Option.some.inj hmo
      have hM0 : (resetRequests (Moderator.init (buildAgents t cap cfgs).length st
          (b.getD (List.replicate (buildAgents t cap cfgs).length 1))
          cap)).interventions =
          List.replicate (buildAgents t cap cfgs).length 0 := rfl
      rcases hnext : (roundOf o (startedSim t cfgs mi b st cap o.openIdx)
          (Moderator.init (buildAgents t cap cfgs).length st
            (b.getD (List.replicate (buildAgents t cap cfgs).length 1)) cap)
          (o.openIdx % (buildAgents t cap cfgs).length) loc).next with _ | j0
      · have hint := roundEngage_next_none o
          (startedSim t cfgs mi b st cap o.openIdx).engagement_log
          (resetRequests (Moderator.init (buildAgents t cap cfgs).length st
            (b.getD (List.replicate (buildAgents t cap cfgs).length 1)) cap))
          (eligOf o (startedSim t cfgs mi b st cap o.openIdx)
            (o.openIdx % (buildAgents t cap cfgs).length) loc)
          (stopped0Of (startedSim t cfgs mi b st cap o.openIdx)
            (eligOf o (startedSim t cfgs mi b st cap o.openIdx)
              (o.openIdx % (buildAgents t cap cfgs).length) loc)) hnext
        rw [show (roundOf o (startedSim t cfgs mi b st cap o.openIdx)
          (Moderator.init (buildAgents t cap cfgs).length st
            (b.getD (List.replicate (buildAgents t cap cfgs).length 1)) cap)
          (o.openIdx % (buildAgents t cap cfgs).length) loc).mod3.interventions =
          List.replicate (buildAgents t cap cfgs).length 0 from hint]
        rcases stepCore_stop_cases o (startedSim t cfgs mi b st cap o.openIdx)
            (Moderator.init (buildAgents t cap cfgs).length st
              (b.getD (List.replicate (buildAgents t cap cfgs).length 1)) cap)
            (o.openIdx % (buildAgents t cap cfgs).length) loc with
          ⟨hf, _, _, _⟩ | ⟨hf, _, hl2, _⟩
        · rw [hf]
          rw [if_neg (by simp)]
          exact getD_replicate_zero _ _
        · rw [hf, hl2, hnext]
          rw [if_neg (by simp)]
          exact getD_replicate_zero _ _
      · obtain ⟨hint, hmem⟩ := roundEngage_next_some o
          (startedSim t cfgs mi b st cap o.openIdx).engagement_log
          (resetRequests (Moderator.init (buildAgents t cap cfgs).length st
            (b.getD (List.replicate (buildAgents t cap cfgs).length 1)) cap))
          (eligOf o (startedSim t cfgs mi b st cap o.openIdx)
            (o.openIdx % (buildAgents t cap cfgs).length) loc)
          (stopped0Of (startedSim t cfgs mi b st cap o.openIdx)
            (eligOf o (startedSim t cfgs mi b st cap o.openIdx)
              (o.openIdx % (buildAgents t cap cfgs).length) loc)) j0 hnext
        rcases hmem with hmem | ⟨a, haEl, haid, hci⟩
        · exact absurd hmem (List.not_mem_nil j0)
        simp only [eligOf, eligibleOf, List.mem_filter] at haEl
        obtain ⟨haMem1, _⟩ := haEl
        have hids1 := idsOk_set_talk o (startedSim t cfgs mi b st cap o.openIdx)
          (o.openIdx % (buildAgents t cap cfgs).length) loc
          (fun i a hia => (buildAgents_getElem t cap cfgs i a (by rw [← hagEq]; exact hia)).1)
          hga
        obtain ⟨i0, hi0⟩ := List.getElem?_of_mem haMem1
        have hai : a.id = i0 := hids1 i0 a hi0
        obtain rfl : j0 = i0 := by rw [← haid, hai]
        have hj0lt : j0 < (buildAgents t cap cfgs).length := by
          have h2 := (List.getElem?_eq_some_iff.mp hi0).1
          rw [List.length_set, hagEq] at h2
          exact h2
        rcases stepCore_stop_cases o (startedSim t cfgs mi b st cap o.openIdx)
            (Moderator.init (buildAgents t cap cfgs).length st
              (b.getD (List.replicate (buildAgents t cap cfgs).length 1)) cap)
            (o.openIdx % (buildAgents t cap cfgs).length) loc with
          ⟨hf, _, _, hsanone⟩ | ⟨hf, _, hl2, _⟩
        · exfalso
          apply hsanone
          have hstopnone := roundEngage_stopped_of_next_some o
            (startedSim t cfgs mi b st cap o.openIdx).engagement_log
            (resetRequests (Moderator.init (buildAgents t cap cfgs).length st
              (b.getD (List.replicate (buildAgents t cap cfgs).length 1)) cap))
            (eligOf o (startedSim t cfgs mi b st cap o.openIdx)
              (o.openIdx % (buildAgents t cap cfgs).length) loc)
            (stopped0Of (startedSim t cfgs mi b st cap o.openIdx)
              (eligOf o (startedSim t cfgs mi b st cap o.openIdx)
                (o.openIdx % (buildAgents t cap cfgs).length) loc)) j0 hnext
          rw [show (roundOf o (startedSim t cfgs mi b st cap o.openIdx)
            (Moderator.init (buildAgents t cap cfgs).length st
              (b.getD (List.replicate (buildAgents t cap cfgs).length 1)) cap)
            (o.openIdx % (buildAgents t cap cfgs).length) loc).stopped = none
            from hstopnone]
          apply stopAfter_none_of
          · rfl
          · rw [List.length_set, hagEq, hbl]
            exact hn
          · exact hmi
        · rw [hf, hl2, hnext]
          rw [show (roundOf o (startedSim t cfgs mi b st cap o.openIdx)
            (Moderator.init (buildAgents t cap cfgs).length st
              (b.getD (List.replicate (buildAgents t cap cfgs).length 1)) cap)
            (o.openIdx % (buildAgents t cap cfgs).length) loc).mod3.interventions =
            bumpAt (List.replicate (buildAgents t cap cfgs).length 0) j0 from hint]
          by_cases hjj : j = j0
          · subst hjj
            rw [if_pos ⟨rfl, rfl⟩]
            rw [getD_bumpAt_self _ _ (by rw [List.length_replicate]; exact hj0lt)]
            rw [getD_replicate_zero]
          · rw [if_neg (by simp; omega)]
            rw [getD_bumpAt_ne _ _ _ (fun hh => hjj hh)]
            exact getD_replicate_zero _ _

/-- The state after one step of a plain (uncapped) two-agent simulation where
nobody raises a hand, used by the C10 witness. -/
def noHandStopSim : Simulation :=
  { topic := "t"
    agent_configs := [⟨"A", "a"⟩, ⟨"B", "b"⟩]
    max_iters := 21
    bias := some [1, 1]
    stance := ""
    max_interventions_per_agent := none
    iters := 0
    intervenciones := ["A"]
    engagement_log := [[]]
    opiniones := ["crit"]
    agents := [⟨0, "A", "t", "a", ["sum"], 3, "crit", none, 1⟩,
      ⟨1, "B", "t", "b", [], 3, "", none, 0⟩]
    mod := some
      { requests := []
        desire_weights := []
        interventions := [0, 0]
        hands_raised := [0, 0]
        weights := []
        bias := [1, 1]
        stance := ""
        max_interventions_per_agent := none }
    locutor := some 0
    started := true
    finished := true }

/-- The round result accompanying `noHandStopSim`. -/
def noHandStopRes : StepResult :=
  ⟨0, "A", "crit", [], true, some "No agents want to continue the debate"⟩

/-- Witness for C10: in the concrete no-hand round, the moderator counts no
selection (the round stopped with nobody willing to continue), even though
the opening speaker spoke. -/
theorem claim10_witness :
    ({ requests := [], desire_weights := [], interventions := [0, 0],
       hands_raised := [0, 0], weights := [], bias := [1, 1], stance := "",
       max_interventions_per_agent := none } : Moderator).interventions.getD 0 0 =
      if noHandStopSim.finished = false ∧ noHandStopSim.locutor = some 0 then 1
      else 0 :=
  (claim10_interventions_count_selections "t" [⟨"A", "a"⟩, ⟨"B", "b"⟩] 21 none "" none
    oNoHand noHandStopSim noHandStopRes (by decide) (by omega) (by decide)).2
    _ rfl 0


end Debate
